import Mathlib

/-!
Verification of the super-action entrypoint pipeline.

This file embeds the core of `entrypoint.py` (step merging, synthetic id
assignment, workflow generation, result correlation fallback, and the
results-output-file path guard) as executable Lean definitions and proves
properties about them.

Conventions of the embedding:
* Python `dict` step specifications become the `StepSpec` structure whose
  optional keys are `Option String` (absent key = `none`).
* Python truthiness of an optional string value (`if action_uses:`) becomes
  `truthy`: present and non-empty.
* Python `dict` insertion (`id_index_map[action_id] = i`) becomes `dictInsert`
  on an association list kept in insertion order (update-in-place when the key
  exists, append otherwise), matching CPython dict semantics.
* `sys.exit(1)` via `fail_action` becomes `Except.error` inside
  `generate_workflow_and_map`, and a nonzero exit code in the `runPipeline`
  model of `run()`.
* The external processes (the `act` engine and the result parser script) and
  the JSON validity test (`json.loads`) are out-of-scope collaborators; they
  are parameters of the model (`actExit`, `ParserB`, `jsonValid`).
-/

namespace SuperAction

/-- A caller-supplied step specification: a Python dict with optional keys
`uses`, `run`, `name`, `with`, `shell`, `working-directory`
(absent key = `none`). -/
structure StepSpec where
  uses : Option String := none
  run : Option String := none
  name : Option String := none
  withArgs : Option String := none
  shell : Option String := none
  workingDirectory : Option String := none
deriving DecidableEq

/-- Python truthiness of an optional string value: present and non-empty. -/
def truthy : Option String → Bool
  | none => false
  | some s => !(s == "")

/-- The condition under which the loop body of `generate_workflow_and_map`
does not call `fail_action`: the step has a truthy `uses` or a truthy `run`. -/
def validStep (a : StepSpec) : Bool :=
  truthy a.uses || truthy a.run

/-- `action_uses.split(\x27@\x27)[0].replace(\x27/\x27, \x27-\x27)` from
line 121: the characters before the first `@`, with every `/` replaced
by `-`. -/
def usesToken (u : String) : String :=
  ⟨(u.data.takeWhile (fun c => c != '@')).map (fun c => if c = '/' then '-' else c)⟩

/-- `" ".join(str(action_name).split()).strip()` from line 132: collapse runs
of whitespace to single spaces and trim. -/
def cleanName (s : String) : String :=
  (String.intercalate " " ((s.split (fun c => c.isWhitespace)).filter (fun p => p ≠ ""))).trim

/-- A rendered workflow step entry (the `step_dict` of lines 135-149 and the
collection step of lines 152-163); absent keys are `none`. -/
structure StepEntry where
  name : String
  id : String
  ifCond : Option String := none
  uses : Option String := none
  withArgs : Option String := none
  shell : Option String := none
  workingDirectory : Option String := none
  run : Option String := none
deriving DecidableEq

/-- One job of the generated workflow (lines 169-172). -/
structure Job where
  runsOn : String
  steps : List StepEntry
deriving DecidableEq

/-- The generated workflow document (lines 165-174); `jobs` is the dict of
jobs in insertion order. -/
structure Workflow where
  name : String
  onPush : Bool
  jobs : List (String × Job)
deriving DecidableEq

/-- `tempfile.gettempdir()` with its default POSIX value. -/
def TEMP_DIR : String := "/tmp"

/-- `RESULTS_FILE = TEMP_DIR / "results.json"` (line 24). -/
def RESULTS_FILE : String := TEMP_DIR ++ "/results.json"

/-- The body of the `Collect Results` step (lines 157-162); `\x7b` and `\x7d`
are literal braces. -/
def collectRunBody : String :=
  "echo \x27Writing raw results to " ++ RESULTS_FILE ++ "...\x27 >&2\n" ++
  "# Use printf; subsequent processing will parse this potentially non-standard JSON\n" ++
  "printf \x27%s\\n\x27 \"$\x7b\x7b toJSON(steps) \x7d\x7d\" > \"" ++ RESULTS_FILE ++ "\"\n" ++
  "echo \x27Raw results written.\x27 >&2"

/-- The appended terminal collection step (lines 152-163). -/
def collectStep : StepEntry :=
  { name := "Collect Results"
    id := "collect_results_step"
    ifCond := some "always()"
    shell := some "bash"
    run := some collectRunBody }

/-- The synthetic id assigned to the step at position `i`
(lines 120-126): `action_<i>_<token>` with the token taken from `uses`
when `uses` is truthy, else the literal `run`. -/
def stepIdOf (i : Nat) (a : StepSpec) : String :=
  if truthy a.uses then
    "action_" ++ Nat.repr i ++ "_" ++ usesToken (a.uses.getD "")
  else
    "action_" ++ Nat.repr i ++ "_run"

/-- The rendered entry for the step at position `i` (lines 117-149), assuming
`validStep a`. -/
def entryOf (i : Nat) (a : StepSpec) : StepEntry :=
  if truthy a.uses then
    let u := a.uses.getD ""
    let nm := if truthy a.name then a.name.getD "" else "Run " ++ u
    { name := cleanName nm ++ " (" ++ stepIdOf i a ++ ")"
      id := stepIdOf i a
      uses := some u
      withArgs := a.withArgs }
  else
    let nm := if truthy a.name then a.name.getD "" else "Run script " ++ Nat.repr i
    { name := cleanName nm ++ " (" ++ stepIdOf i a ++ ")"
      id := stepIdOf i a
      shell := some (a.shell.getD "bash")
      workingDirectory := a.workingDirectory
      run := a.run }

/-- One iteration of the loop body of `generate_workflow_and_map`
(lines 114-149): the synthetic id and rendered entry, or the `fail_action`
message when the step has neither a truthy `uses` nor a truthy `run`. -/
def mkStep (i : Nat) (a : StepSpec) : Except String (String × StepEntry) :=
  if truthy a.uses || truthy a.run then
    .ok (stepIdOf i a, entryOf i a)
  else
    .error ("Invalid step definition at index " ++ Nat.repr i ++
      ". Must contain \x27uses\x27 or \x27run\x27.")

/-- CPython dict assignment `m[k] = v` on an insertion-ordered association
list: update in place when the key exists, append otherwise. -/
def dictInsert (m : List (String × Nat)) (k : String) (v : Nat) :
    List (String × Nat) :=
  if m.any (fun p => p.1 == k) then
    m.map (fun p => if p.1 == k then (k, v) else p)
  else
    m ++ [(k, v)]

/-- The `for i, action in enumerate(merged_actions)` loop of
`generate_workflow_and_map` (lines 114-149), carrying the accumulated
`workflow_steps` and `id_index_map`. -/
def genLoop : Nat → List StepSpec → List StepEntry → List (String × Nat) →
    Except String (List StepEntry × List (String × Nat))
  | _, [], steps, m => .ok (steps, m)
  | i, a :: rest, steps, m =>
    match mkStep i a with
    | .error e => .error e
    | .ok (id, entry) => genLoop (i + 1) rest (steps ++ [entry]) (dictInsert m id i)

/-- `generate_workflow_and_map` (lines 106-175): the workflow document and the
id→index correlation map, or the `fail_action` message. -/
def generate_workflow_and_map (merged : List StepSpec) (runnerOs : String) :
    Except String (Workflow × List (String × Nat)) :=
  match genLoop 0 merged [] [] with
  | .error e => .error e
  | .ok (steps, m) =>
    .ok ({ name := "Dynamic Workflow Execution"
           onPush := true
           jobs := [("dynamic_job", { runsOn := runnerOs, steps := steps ++ [collectStep] })] },
         m)

/-- `merged_actions = presets + custom_actions` (line 307). -/
def mergeActions (presets custom : List StepSpec) : List StepSpec :=
  presets ++ custom

/-- Reference list of rendered entries starting at position `i` (what the loop
appends to `workflow_steps` when every step is valid). -/
def entriesFrom : Nat → List StepSpec → List StepEntry
  | _, [] => []
  | i, a :: rest => entryOf i a :: entriesFrom (i + 1) rest

/-- Reference list of (synthetic id, original index) pairs starting at
position `i` (what the loop inserts into `id_index_map` when every step is
valid). -/
def pairList : Nat → List StepSpec → List (String × Nat)
  | _, [] => []
  | i, a :: rest => (stepIdOf i a, i) :: pairList (i + 1) rest

/-- The token portion of a synthetic id: from `uses` when `uses` is truthy,
else the literal `run`. -/
def tokenOf (a : StepSpec) : String :=
  if truthy a.uses then usesToken (a.uses.getD "") else "run"

/-- Fuel-free decimal digit-char list of a natural number, equal to
`Nat.toDigits 10` (used to reason about `Nat.repr`). -/
def digitsAux (n : Nat) : List Char :=
  if h : n < 10 then [Nat.digitChar n]
  else digitsAux (n / 10) ++ [Nat.digitChar (n % 10)]
termination_by n
decreasing_by exact Nat.div_lt_self (by omega) (by omega)

/-- Recover the decimal index portion of a synthetic id: the characters after
`action_` up to the next underscore. -/
def extractIdx (s : String) : List Char :=
  (s.data.drop 7).takeWhile (fun c => c != '_')

/-- Does the char list begin with the pattern? (helper for substring tests). -/
def startsWithChars : List Char → List Char → Bool
  | _, [] => true
  | [], _ :: _ => false
  | c :: cs, d :: ds => c == d && startsWithChars cs ds

/-- Does the char list contain the pattern as a contiguous sublist? -/
def hasSubChars (pat : List Char) : List Char → Bool
  | [] => pat.isEmpty
  | c :: cs => startsWithChars (c :: cs) pat || hasSubChars pat cs

/-- Python substring containment `pat in s`. -/
def containsSub (s pat : String) : Bool :=
  hasSubChars pat.data s.data

/-- `PosixPath(s).is_absolute()`: the path starts with a slash. -/
def pathIsAbsolute (s : String) : Bool :=
  startsWithChars s.data ['/']

/-- Which of the three backing files of `process_results` exist
(`results_file`, `id_map_file`, `merged_actions_file`; lines 209, 243-245). -/
structure ResFiles where
  resultsPresent : Bool
  idMapPresent : Bool
  mergedPresent : Bool
deriving DecidableEq

/-- Behavior of the external parser subprocess: a nonzero exit (or any other
exception from `subprocess.run(..., check=True)`), or success with the given
captured stdout. -/
inductive ParserB
  | fail
  | ok (stdoutStr : String)
deriving DecidableEq

/-- Diagnostics emitted by `process_results` (lines 229-245), tagged. -/
inductive Wmsg
  | missingResults
  | missingIdMap
  | missingMerged
  | parserFailed
  | invalidJson
deriving DecidableEq

/-- `process_results` (lines 202-247), parametric in the parser subprocess
behavior and in the `json.loads`-succeeds test. Returns the result string,
whether the parser subprocess was invoked, and the diagnostics. -/
def process_results (files : ResFiles) (parser : ParserB)
    (jsonValid : String → Bool) : String × Bool × List Wmsg :=
  if files.resultsPresent && files.idMapPresent && files.mergedPresent then
    match parser with
    | .fail => ("[]", true, [Wmsg.parserFailed])
    | .ok out =>
      let cand := out.trim
      if jsonValid cand then (cand, true, [])
      else ("[]", true, [Wmsg.invalidJson])
  else
    ("[]", false,
      (if !files.resultsPresent then [Wmsg.missingResults] else []) ++
      (if !files.idMapPresent then [Wmsg.missingIdMap] else []) ++
      (if !files.mergedPresent then [Wmsg.missingMerged] else []))

/-- Observable side effects of the tail of `run()`. -/
inductive Ev
  | engineLaunched
  | parserInvoked
  | outputSet (v : String)
  | fileSaved (path content : String)
  | saveSkipped
deriving DecidableEq

/-- `save_results_to_file` (lines 249-267) as the events it produces: nothing
when no output file was requested (`if not output_file: return`), a skip when
the path is absolute or contains `..` (lines 254-257, `return` without
exiting), otherwise a write of the results string to the relative path. -/
def save_results_to_file (resultsJsonStr : String) (outputFile : Option String) :
    List Ev :=
  match outputFile with
  | none => []
  | some f =>
    if f == "" then []
    else if pathIsAbsolute f || containsSub f ".." then [Ev.saveSkipped]
    else [Ev.fileSaved f resultsJsonStr]

/-- Outcome of one `run()` invocation: the process exit code and the ordered
observable events. -/
structure PipeResult where
  exitCode : Nat
  trace : List Ev
deriving DecidableEq

/-- The main flow `run()` (lines 284-345), from the loaded step lists onward.
`presetsInput`/`customInput` are `none` when the corresponding environment
input is absent or empty (the line 301 check), else the loaded step list.
`writeMergedOk`/`writeFilesOk` model whether the intermediate-file writes of
lines 314 and 323-327 succeed. The engine exit code `actExit` is recorded but
never aborts (lines 333-335). Result display only logs and is omitted from
the event trace. -/
def runPipeline (presetsInput customInput : Option (List StepSpec))
    (runnerOs : String) (writeMergedOk writeFilesOk : Bool) (actExit : Nat)
    (files : ResFiles) (parser : ParserB) (jsonValid : String → Bool)
    (outputFile : Option String) : PipeResult :=
  if presetsInput.isNone && customInput.isNone then
    { exitCode := 1, trace := [] }
  else
    let merged := mergeActions (presetsInput.getD []) (customInput.getD [])
    if merged.isEmpty then
      { exitCode := 1, trace := [] }
    else if !writeMergedOk then
      { exitCode := 1, trace := [] }
    else
      match generate_workflow_and_map merged runnerOs with
      | .error _ => { exitCode := 1, trace := [] }
      | .ok _ =>
        if !writeFilesOk then
          { exitCode := 1, trace := [] }
        else
          let pr := process_results files parser jsonValid
          { exitCode := 0
            trace :=
              [Ev.engineLaunched] ++
              (if pr.2.1 then [Ev.parserInvoked] else []) ++
              [Ev.outputSet pr.1] ++
              save_results_to_file pr.1 outputFile }

/-- Sample step: an inline script step. -/
def sampleP0 : StepSpec := { run := some "echo p0" }

/-- Sample step: a reusable-action step with a version suffix. -/
def sampleP1 : StepSpec := { uses := some "actions/checkout@v4" }

/-- Sample step: another inline script step. -/
def sampleC0 : StepSpec := { run := some "echo c0" }

/-- Sample step: both `uses` and `run` present (truthy `uses` wins). -/
def sampleBoth : StepSpec := { uses := some "actions/checkout@v4", run := some "echo hi" }

/-- Sample step: `uses` and `run` both present but empty strings (falsy). -/
def sampleEmptyBoth : StepSpec := { uses := some "", run := some "" }

/-! ### Decimal representation lemmas -/

theorem digitChar_inj_lt : ∀ a, a < 10 → ∀ b, b < 10 →
    Nat.digitChar a = Nat.digitChar b → a = b := by decide

theorem digitChar_underscore : ∀ a, a < 10 → (Nat.digitChar a == '_') = false := by decide

theorem digitsAux_ne_nil (n : Nat) : digitsAux n ≠ [] := by
  rw [digitsAux]
  split <;> simp

theorem digitsAux_no_underscore (n : Nat) : ∀ c ∈ digitsAux n, (c == '_') = false := by
  induction n using Nat.strong_induction_on with
  | _ n ih =>
    rw [digitsAux]
    split
    · next h =>
      intro c hc
      simp only [List.mem_singleton] at hc
      subst hc
      exact digitChar_underscore n h
    · next h =>
      intro c hc
      rcases List.mem_append.1 hc with h1 | h1
      · exact ih (n / 10) (Nat.div_lt_self (by omega) (by omega)) c h1
      · simp only [List.mem_singleton] at h1
        subst h1
        exact digitChar_underscore _ (Nat.mod_lt _ (by omega))

theorem digitsAux_eq (n : Nat) :
    digitsAux n = if n < 10 then [Nat.digitChar n]
      else digitsAux (n / 10) ++ [Nat.digitChar (n % 10)] := by
  by_cases h : n < 10
  · rw [digitsAux, dif_pos h, if_pos h]
  · rw [digitsAux, dif_neg h, if_neg h]

theorem digitsAux_inj (m : Nat) : ∀ n, digitsAux m = digitsAux n → m = n := by
  induction m using Nat.strong_induction_on with
  | _ m ih =>
    intro n h
    by_cases hm : m < 10 <;> by_cases hn : n < 10
    · rw [digitsAux_eq m, if_pos hm, digitsAux_eq n, if_pos hn] at h
      simp only [List.cons.injEq] at h
      exact digitChar_inj_lt m hm n hn h.1
    · rw [digitsAux_eq m, if_pos hm, digitsAux_eq n, if_neg hn] at h
      have hlen := congrArg List.length h
      simp only [List.length_singleton, List.length_append, List.length_cons,
        List.length_nil] at hlen
      have hz : (digitsAux (n / 10)).length = 0 := by omega
      exact ((digitsAux_ne_nil _) (List.length_eq_zero.1 hz)).elim
    · rw [digitsAux_eq m, if_neg hm, digitsAux_eq n, if_pos hn] at h
      have hlen := congrArg List.length h
      simp only [List.length_singleton, List.length_append, List.length_cons,
        List.length_nil] at hlen
      have hz : (digitsAux (m / 10)).length = 0 := by omega
      exact ((digitsAux_ne_nil _) (List.length_eq_zero.1 hz)).elim
    · rw [digitsAux_eq m, if_neg hm, digitsAux_eq n, if_neg hn] at h
      obtain ⟨h1, h2⟩ := List.append_inj' h (by simp)
      have e1 := ih (m / 10) (Nat.div_lt_self (by omega) (by omega)) (n / 10) h1
      simp only [List.cons.injEq] at h2
      have e2 := digitChar_inj_lt (m % 10) (Nat.mod_lt _ (by omega)) (n % 10)
        (Nat.mod_lt _ (by omega)) h2.1
      omega

theorem toDigitsCore_eq_digitsAux :
    ∀ (fuel n : Nat) (ds : List Char), n < fuel →
      Nat.toDigitsCore 10 fuel n ds = digitsAux n ++ ds := by
  intro fuel
  induction fuel with
  | zero => intro n ds h; omega
  | succ f ih =>
    intro n ds h
    simp only [Nat.toDigitsCore]
    by_cases h10 : n / 10 = 0
    · have hn : n < 10 := by omega
      rw [if_pos h10, digitsAux_eq n, if_pos hn, Nat.mod_eq_of_lt hn]
      rfl
    · have hn : ¬ n < 10 := by omega
      rw [if_neg h10, ih (n / 10) _ (by omega), digitsAux_eq n, if_neg hn,
        List.append_assoc]
      rfl

theorem repr_data (n : Nat) : (Nat.repr n).data = digitsAux n := by
  show (Nat.toDigits 10 n).asString.data = digitsAux n
  rw [Nat.toDigits, toDigitsCore_eq_digitsAux (n + 1) n [] (Nat.lt_succ_self n),
    List.append_nil]
  rfl

theorem repr_inj (m n : Nat) (h : Nat.repr m = Nat.repr n) : m = n := by
  apply digitsAux_inj
  rw [← repr_data, ← repr_data, h]

/-! ### Synthetic id structure and injectivity -/

theorem stepIdOf_eq (i : Nat) (a : StepSpec) :
    stepIdOf i a = "action_" ++ Nat.repr i ++ "_" ++ tokenOf a := by
  rw [stepIdOf, tokenOf]
  split
  · rfl
  · apply String.ext
    simp [String.data_append, List.append_assoc]

theorem stepIdOf_data (i : Nat) (a : StepSpec) :
    (stepIdOf i a).data = "action_".data ++ ((Nat.repr i).data ++ '_' :: (tokenOf a).data) := by
  rw [stepIdOf_eq]
  simp [String.data_append, List.append_assoc]

theorem takeWhile_until_underscore (l r : List Char)
    (hl : ∀ c ∈ l, (c == '_') = false) :
    (l ++ '_' :: r).takeWhile (fun c => c != '_') = l := by
  induction l with
  | nil =>
    rw [List.nil_append, List.takeWhile_cons]
    simp
  | cons c cs ih =>
    have hc : (c != '_') = true := by
      rw [show (c != '_') = !(c == '_') from rfl, hl c (by simp)]
      rfl
    rw [List.cons_append, List.takeWhile_cons, if_pos hc,
      ih (fun d hd => hl d (by simp [hd]))]

theorem extractIdx_stepIdOf (i : Nat) (a : StepSpec) :
    extractIdx (stepIdOf i a) = digitsAux i := by
  rw [extractIdx, stepIdOf_data,
    List.drop_left' (show ("action_".data).length = 7 by decide), repr_data]
  exact takeWhile_until_underscore _ _ (digitsAux_no_underscore i)

theorem stepIdOf_inj (i j : Nat) (a b : StepSpec) (hij : i ≠ j) :
    stepIdOf i a ≠ stepIdOf j b := by
  intro h
  apply hij
  apply digitsAux_inj
  rw [← extractIdx_stepIdOf i a, ← extractIdx_stepIdOf j b, h]

/-! ### Characterization of the generation loop -/

theorem mkStep_ok (i : Nat) (a : StepSpec) (h : validStep a = true) :
    mkStep i a = .ok (stepIdOf i a, entryOf i a) := by
  have h' : (truthy a.uses || truthy a.run) = true := h
  rw [mkStep, if_pos h']

theorem mkStep_err (i : Nat) (a : StepSpec) (h : validStep a = false) :
    mkStep i a = .error ("Invalid step definition at index " ++ Nat.repr i ++
      ". Must contain \x27uses\x27 or \x27run\x27.") := by
  have h' : ¬ ((truthy a.uses || truthy a.run) = true) := by
    simp only [validStep] at h
    simp [h]
  rw [mkStep, if_neg h']

theorem genLoop_ok (l : List StepSpec) :
    ∀ (i : Nat) (steps : List StepEntry) (m : List (String × Nat)),
    (∀ a ∈ l, validStep a = true) →
    (∀ k ∈ m.map Prod.fst, ∀ (j : Nat) (b : StepSpec), i ≤ j → k ≠ stepIdOf j b) →
    genLoop i l steps m = .ok (steps ++ entriesFrom i l, m ++ pairList i l) := by
  induction l with
  | nil =>
    intro i steps m _ _
    simp [genLoop, entriesFrom, pairList]
  | cons a rest ih =>
    intro i steps m hv hk
    have hins : dictInsert m (stepIdOf i a) i = m ++ [(stepIdOf i a, i)] := by
      rw [dictInsert, if_neg]
      intro hany
      rw [List.any_eq_true] at hany
      obtain ⟨p, hp, hpe⟩ := hany
      have hne := hk p.1 (List.mem_map_of_mem Prod.fst hp) i a (Nat.le_refl i)
      exact hne (by simpa using hpe)
    have hk' : ∀ k ∈ (m ++ [(stepIdOf i a, i)]).map Prod.fst,
        ∀ (j : Nat) (b : StepSpec), i + 1 ≤ j → k ≠ stepIdOf j b := by
      intro k hkmem j b hij
      rw [List.map_append, List.mem_append] at hkmem
      rcases hkmem with hkm | hkm
      · exact hk k hkm j b (by omega)
      · simp only [List.map_cons, List.map_nil, List.mem_singleton] at hkm
        subst hkm
        exact stepIdOf_inj i j a b (by omega)
    simp only [genLoop]
    rw [mkStep_ok i a (hv a (by simp))]
    simp only []
    rw [hins, ih (i + 1) (steps ++ [entryOf i a]) (m ++ [(stepIdOf i a, i)])
      (fun b hb => hv b (by simp [hb])) hk']
    simp [entriesFrom, pairList, List.append_assoc]

theorem genLoop_valid_of_ok (l : List StepSpec) :
    ∀ (i : Nat) (steps : List StepEntry) (m : List (String × Nat)) r,
    genLoop i l steps m = .ok r → ∀ a ∈ l, validStep a = true := by
  induction l with
  | nil =>
    intro _ _ _ _ _ a ha
    simp at ha
  | cons a rest ih =>
    intro i steps m r h b hb
    simp only [genLoop] at h
    cases hv : validStep a with
    | false =>
      rw [mkStep_err i a hv] at h
      simp at h
    | true =>
      rw [mkStep_ok i a hv] at h
      rcases List.mem_cons.1 hb with rfl | hb'
      · exact hv
      · exact ih _ _ _ r h b hb'

theorem genLoop_err_of_invalid (l : List StepSpec) :
    ∀ (i : Nat) (steps : List StepEntry) (m : List (String × Nat)),
    (∃ a ∈ l, validStep a = false) → ∃ e, genLoop i l steps m = .error e := by
  induction l with
  | nil =>
    intro _ _ _ h
    rcases h with ⟨a, ha, _⟩
    simp at ha
  | cons a rest ih =>
    intro i steps m h
    cases hv : validStep a with
    | false =>
      refine ⟨"Invalid step definition at index " ++ Nat.repr i ++
        ". Must contain \x27uses\x27 or \x27run\x27.", ?_⟩
      simp only [genLoop]
      rw [mkStep_err i a hv]
    | true =>
      rcases h with ⟨b, hb, hbv⟩
      rcases List.mem_cons.1 hb with rfl | hb'
      · rw [hv] at hbv
        cases hbv
      · obtain ⟨e, he⟩ :=
          ih (i + 1) (steps ++ [entryOf i a]) (dictInsert m (stepIdOf i a) i) ⟨b, hb', hbv⟩
        refine ⟨e, ?_⟩
        simp only [genLoop]
        rw [mkStep_ok i a hv]
        exact he

/-- The workflow document produced on a fully valid step list. -/
theorem generate_ok (l : List StepSpec) (ros : String)
    (hv : ∀ a ∈ l, validStep a = true) :
    generate_workflow_and_map l ros =
      .ok ({ name := "Dynamic Workflow Execution"
             onPush := true
             jobs := [("dynamic_job",
               { runsOn := ros, steps := entriesFrom 0 l ++ [collectStep] })] },
           pairList 0 l) := by
  unfold generate_workflow_and_map
  rw [genLoop_ok l 0 [] [] hv (by simp)]
  simp

theorem generate_ok_inv (l : List StepSpec) (ros : String) (wf : Workflow)
    (m : List (String × Nat))
    (h : generate_workflow_and_map l ros = .ok (wf, m)) :
    (∀ a ∈ l, validStep a = true) ∧
    wf = { name := "Dynamic Workflow Execution"
           onPush := true
           jobs := [("dynamic_job",
             { runsOn := ros, steps := entriesFrom 0 l ++ [collectStep] })] } ∧
    m = pairList 0 l := by
  have hv : ∀ a ∈ l, validStep a = true := by
    cases hg : genLoop 0 l [] [] with
    | error e =>
      unfold generate_workflow_and_map at h
      rw [hg] at h
      simp at h
    | ok r => exact genLoop_valid_of_ok l 0 [] [] r hg
  have hgen := generate_ok l ros hv
  rw [hgen] at h
  simp only [Except.ok.injEq, Prod.mk.injEq] at h
  exact ⟨hv, h.1.symm, h.2.symm⟩

theorem entriesFrom_length (l : List StepSpec) :
    ∀ i, (entriesFrom i l).length = l.length := by
  induction l with
  | nil => intro i; rfl
  | cons a rest ih => intro i; simp [entriesFrom, ih]

theorem pairList_length (l : List StepSpec) :
    ∀ i, (pairList i l).length = l.length := by
  induction l with
  | nil => intro i; rfl
  | cons a rest ih => intro i; simp [pairList, ih]

theorem pairList_snd (l : List StepSpec) :
    ∀ i, (pairList i l).map Prod.snd = List.range' i l.length := by
  induction l with
  | nil => intro i; rfl
  | cons a rest ih =>
    intro i
    rw [pairList, List.map_cons, ih (i + 1), List.length_cons, List.range'_succ]

theorem pairList_fst_mem (l : List StepSpec) :
    ∀ i k, k ∈ (pairList i l).map Prod.fst →
      ∃ (j : Nat) (b : StepSpec), i ≤ j ∧ k = stepIdOf j b := by
  induction l with
  | nil =>
    intro i k hk
    simp [pairList] at hk
  | cons a rest ih =>
    intro i k hk
    rw [pairList, List.map_cons, List.mem_cons] at hk
    rcases hk with rfl | hk'
    · exact ⟨i, a, Nat.le_refl i, rfl⟩
    · obtain ⟨j, b, hj, hkb⟩ := ih (i + 1) k hk'
      exact ⟨j, b, by omega, hkb⟩

theorem pairList_fst_nodup (l : List StepSpec) :
    ∀ i, ((pairList i l).map Prod.fst).Nodup := by
  induction l with
  | nil => intro i; simp [pairList]
  | cons a rest ih =>
    intro i
    rw [pairList, List.map_cons, List.nodup_cons]
    refine ⟨?_, ih (i + 1)⟩
    intro hmem
    obtain ⟨j, b, hj, hkb⟩ := pairList_fst_mem rest (i + 1) _ hmem
    exact stepIdOf_inj i j a b (by omega) hkb

theorem generate_err_of_invalid (l : List StepSpec) (ros : String)
    (h : ∃ a ∈ l, validStep a = false) :
    ∃ e, generate_workflow_and_map l ros = .error e := by
  obtain ⟨e, he⟩ := genLoop_err_of_invalid l 0 [] [] h
  refine ⟨e, ?_⟩
  unfold generate_workflow_and_map
  rw [he]

/-- The happy path of `run()`: with inputs provided, a non-empty fully valid
merged list and successful intermediate writes, the pipeline completes with
exit code 0 and the full event trace, whatever the engine exit code and the
result-correlation inputs are. -/
theorem runPipeline_ok (presetsInput customInput : Option (List StepSpec))
    (ros : String) (wm wf : Bool) (actExit : Nat) (files : ResFiles)
    (parser : ParserB) (jsonValid : String → Bool) (outFile : Option String)
    (hne : ¬(presetsInput = none ∧ customInput = none))
    (hmerged : mergeActions (presetsInput.getD []) (customInput.getD []) ≠ [])
    (hv : ∀ a ∈ mergeActions (presetsInput.getD []) (customInput.getD []),
      validStep a = true)
    (hwm : wm = true) (hwf : wf = true) :
    runPipeline presetsInput customInput ros wm wf actExit files parser
        jsonValid outFile =
      { exitCode := 0
        trace :=
          [Ev.engineLaunched] ++
          (if (process_results files parser jsonValid).2.1 then [Ev.parserInvoked] else []) ++
          [Ev.outputSet (process_results files parser jsonValid).1] ++
          save_results_to_file (process_results files parser jsonValid).1 outFile } := by
  subst hwm hwf
  have h1 : (presetsInput.isNone && customInput.isNone) = false := by
    cases presetsInput <;> cases customInput <;> simp_all
  have h2 : (mergeActions (presetsInput.getD []) (customInput.getD [])).isEmpty = false := by
    cases hml : mergeActions (presetsInput.getD []) (customInput.getD []) with
    | nil => exact absurd hml hmerged
    | cons a t => rfl
  simp [runPipeline, h1, h2, generate_ok _ ros hv]

/-! ### Claim theorems -/

/-- C1: for every pair of input sequences, the merged canonical step list is
exactly the presets sequence followed by the custom sequence, and whenever
workflow generation succeeds on it, each step's original index in the
correlation map equals its zero-based position in the merged sequence. -/
theorem c1_merge_order_preserved (presets custom : List StepSpec) (ros : String)
    (w : Workflow) (m : List (String × Nat))
    (h : generate_workflow_and_map (mergeActions presets custom) ros = .ok (w, m)) :
    mergeActions presets custom = presets ++ custom ∧
    m.map Prod.snd = List.range (presets.length + custom.length) := by
  obtain ⟨hv, hw, hm⟩ := generate_ok_inv _ ros w m h
  refine ⟨rfl, ?_⟩
  rw [hm, pairList_snd, List.range_eq_range']
  congr 1
  simp [mergeActions]

/-- C1 witness: presets `[p0, p1]` and custom `[c0]` merge to `[p0, p1, c0]`
with correlation indices `0, 1, 2`. -/
theorem c1_witness :
    mergeActions [sampleP0, sampleP1] [sampleC0] = [sampleP0, sampleP1, sampleC0] ∧
    ∃ (w : Workflow) (m : List (String × Nat)),
      generate_workflow_and_map (mergeActions [sampleP0, sampleP1] [sampleC0])
          "ubuntu-latest" = .ok (w, m) ∧
      m.map Prod.snd = List.range 3 := by
  have hgen := generate_ok (mergeActions [sampleP0, sampleP1] [sampleC0])
    "ubuntu-latest" (by decide)
  have h := c1_merge_order_preserved [sampleP0, sampleP1] [sampleC0]
    "ubuntu-latest" _ _ hgen
  exact ⟨h.1, _, _, hgen, h.2⟩

/-- C2: on every non-empty merged list whose steps all have a truthy `uses`
or `run`, generation succeeds and the correlation map has exactly one entry
per step, with index values exactly `{0, ..., N-1}`, each unique and below
`N`. -/
theorem c2_correlation_map_complete (l : List StepSpec) (ros : String)
    (hne : l ≠ []) (hv : ∀ a ∈ l, validStep a = true) :
    ∃ (w : Workflow) (m : List (String × Nat)),
      generate_workflow_and_map l ros = .ok (w, m) ∧
      m.length = l.length ∧
      m.map Prod.snd = List.range l.length ∧
      (m.map Prod.snd).Nodup ∧
      ∀ p ∈ m, p.2 < l.length := by
  have _hne := hne
  refine ⟨_, _, generate_ok l ros hv, pairList_length l 0, ?_, ?_, ?_⟩
  · rw [pairList_snd, List.range_eq_range']
  · rw [pairList_snd]
    apply List.nodup_range'
    omega
  · intro p hp
    have hmem : p.2 ∈ (pairList 0 l).map Prod.snd := List.mem_map_of_mem Prod.snd hp
    rw [pairList_snd] at hmem
    obtain ⟨k, hk, hpk⟩ := List.mem_range'.1 hmem
    omega

/-- C2 witness: the one-step list `[sampleP0]`. -/
theorem c2_witness :
    ([sampleP0] ≠ [] ∧ ∀ a ∈ [sampleP0], validStep a = true) ∧
    ∃ (w : Workflow) (m : List (String × Nat)),
      generate_workflow_and_map [sampleP0] "ubuntu-latest" = .ok (w, m) ∧
      m.length = 1 ∧
      m.map Prod.snd = List.range 1 ∧
      (m.map Prod.snd).Nodup ∧
      ∀ p ∈ m, p.2 < 1 :=
  ⟨⟨by decide, by decide⟩,
    c2_correlation_map_complete [sampleP0] "ubuntu-latest" (by decide) (by decide)⟩

/-- C3: the synthetic id of the step at position `i` is
`action_<i>_<token>`, with the token derived from `uses` (version suffix
stripped, slashes replaced) when `uses` is truthy and the literal `run`
otherwise; and ids at distinct indices always differ, whatever the token
portions are. -/
theorem c3_synthetic_id_distinct (i j : Nat) (a b : StepSpec) (hij : i ≠ j) :
    stepIdOf i a = "action_" ++ Nat.repr i ++ "_" ++ tokenOf a ∧
    (truthy a.uses = true → tokenOf a = usesToken (a.uses.getD "")) ∧
    (truthy a.uses = false → tokenOf a = "run") ∧
    stepIdOf i a ≠ stepIdOf j b := by
  refine ⟨stepIdOf_eq i a, ?_, ?_, stepIdOf_inj i j a b hij⟩
  · intro h
    rw [tokenOf, if_pos h]
  · intro h
    rw [tokenOf, if_neg (by simp [h])]

/-- C3 witness: the same action at indices 2 and 5 gets distinct ids with
identical token portions. -/
theorem c3_witness :
    (2 : Nat) ≠ 5 ∧
    stepIdOf 2 sampleP1 = "action_2_actions-checkout" ∧
    stepIdOf 5 sampleP1 = "action_5_actions-checkout" ∧
    stepIdOf 2 sampleP1 ≠ stepIdOf 5 sampleP1 := by
  have h := c3_synthetic_id_distinct 2 5 sampleP1 sampleP1 (by decide)
  exact ⟨by decide, by decide, by decide, h.2.2.2⟩

/-- C4: when the merged list contains a step with neither a truthy `uses` nor
a truthy `run`, the pipeline exits nonzero with an empty event trace: the
engine is never launched and no output is produced. -/
theorem c4_invalid_step_aborts (presetsInput customInput : Option (List StepSpec))
    (ros : String) (wm wf : Bool) (actExit : Nat) (files : ResFiles)
    (parser : ParserB) (jsonValid : String → Bool) (outFile : Option String)
    (hinv : ∃ a ∈ mergeActions (presetsInput.getD []) (customInput.getD []),
      validStep a = false) :
    (runPipeline presetsInput customInput ros wm wf actExit files parser
        jsonValid outFile).exitCode ≠ 0 ∧
    Ev.engineLaunched ∉ (runPipeline presetsInput customInput ros wm wf actExit
        files parser jsonValid outFile).trace ∧
    (runPipeline presetsInput customInput ros wm wf actExit files parser
        jsonValid outFile).trace = [] := by
  obtain ⟨e, he⟩ := generate_err_of_invalid _ ros hinv
  have hr : runPipeline presetsInput customInput ros wm wf actExit files parser
      jsonValid outFile = { exitCode := 1, trace := [] } := by
    simp [runPipeline, he]
  rw [hr]
  exact ⟨by simp, by simp, rfl⟩

/-- C4 witness: a merged list whose second step has `uses` and `run` both
empty. -/
theorem c4_witness :
    (∃ a ∈ mergeActions [sampleP0] [sampleEmptyBoth], validStep a = false) ∧
    (runPipeline (some [sampleP0]) (some [sampleEmptyBoth]) "ubuntu-latest"
        true true 0 ⟨true, true, true⟩ (ParserB.ok "[]") (fun _ => true)
        none).exitCode ≠ 0 :=
  ⟨by decide,
    (c4_invalid_step_aborts (some [sampleP0]) (some [sampleEmptyBoth])
      "ubuntu-latest" true true 0 ⟨true, true, true⟩ (ParserB.ok "[]")
      (fun _ => true) none (by decide)).1⟩

/-- C5: `process_results` returns exactly `"[]"` under every correlation
failure mode — a missing backing file (with per-file warnings and without
invoking the parser), a failing parser subprocess, or parser stdout that the
JSON validity test rejects — and never returns a string the validity test
rejects. -/
theorem c5_fallback_empty_array (files : ResFiles) (parser : ParserB)
    (jsonValid : String → Bool) :
    ((files.resultsPresent && files.idMapPresent && files.mergedPresent) = false →
      (process_results files parser jsonValid).1 = "[]" ∧
      (process_results files parser jsonValid).2.1 = false ∧
      (files.resultsPresent = false ↔
        Wmsg.missingResults ∈ (process_results files parser jsonValid).2.2) ∧
      (files.idMapPresent = false ↔
        Wmsg.missingIdMap ∈ (process_results files parser jsonValid).2.2) ∧
      (files.mergedPresent = false ↔
        Wmsg.missingMerged ∈ (process_results files parser jsonValid).2.2)) ∧
    ((files.resultsPresent && files.idMapPresent && files.mergedPresent) = true →
      parser = ParserB.fail →
      (process_results files parser jsonValid).1 = "[]") ∧
    (∀ out, parser = ParserB.ok out → jsonValid out.trim = false →
      (process_results files parser jsonValid).1 = "[]") ∧
    ((process_results files parser jsonValid).1 = "[]" ∨
      jsonValid (process_results files parser jsonValid).1 = true) := by
  obtain ⟨fr, fi, fm⟩ := files
  refine ⟨?_, ?_, ?_, ?_⟩
  · intro hm
    cases fr <;> cases fi <;> cases fm <;> simp_all [process_results]
  · intro hm hp
    subst hp
    simp [process_results, hm]
  · intro out hp hj
    subst hp
    by_cases hm : (fr && fi && fm) = true
    · simp [process_results, hm, hj]
    · simp [process_results, hm]
  · by_cases hm : (fr && fi && fm) = true
    · cases parser with
      | fail =>
        left
        simp [process_results, hm]
      | ok out =>
        by_cases hj : jsonValid out.trim = true
        · right
          simp [process_results, hm, hj]
        · left
          simp [process_results, hm, hj]
    · left
      simp [process_results, hm]

/-- C5 witness: missing raw-results file yields `"[]"`, no parser invocation,
and a warning naming the missing file. -/
theorem c5_witness :
    ((false && true && true) = false) ∧
    (process_results ⟨false, true, true⟩ ParserB.fail (fun _ => false)).1 = "[]" ∧
    (process_results ⟨false, true, true⟩ ParserB.fail (fun _ => false)).2.1 = false ∧
    Wmsg.missingResults ∈
      (process_results ⟨false, true, true⟩ ParserB.fail (fun _ => false)).2.2 := by
  have h := (c5_fallback_empty_array ⟨false, true, true⟩ ParserB.fail
    (fun _ => false)).1 (by decide)
  exact ⟨by decide, h.1, h.2.1, h.2.2.1.mp (by decide)⟩

/-- C6: generation yields a document with exactly one job whose step list is
the N rendered canonical steps in order followed by the terminal
`collect_results_step`, which is marked `if: always()` and whose body names
the fixed results artifact path. -/
theorem c6_workflow_shape (l : List StepSpec) (ros : String) (w : Workflow)
    (m : List (String × Nat))
    (h : generate_workflow_and_map l ros = .ok (w, m)) :
    w.jobs.length = 1 ∧
    ∃ job, w.jobs = [("dynamic_job", job)] ∧
      job.steps = entriesFrom 0 l ++ [collectStep] ∧
      job.steps.length = l.length + 1 ∧
      job.steps.take l.length = entriesFrom 0 l ∧
      job.steps.getLast? = some collectStep ∧
      collectStep.id = "collect_results_step" ∧
      collectStep.ifCond = some "always()" ∧
      containsSub collectRunBody RESULTS_FILE = true := by
  obtain ⟨hv, hw, hm⟩ := generate_ok_inv l ros w m h
  subst hw
  refine ⟨rfl, { runsOn := ros, steps := entriesFrom 0 l ++ [collectStep] },
    rfl, rfl, ?_, List.take_left' (entriesFrom_length l 0),
    List.getLast?_concat _, rfl, rfl, by decide⟩
  simp [entriesFrom_length]

/-- C6 witness: one valid step produces one job with two step entries. -/
theorem c6_witness :
    ∃ (w : Workflow) (m : List (String × Nat)),
      generate_workflow_and_map [sampleP0] "ubuntu-latest" = .ok (w, m) ∧
      w.jobs.length = 1 ∧
      ∃ job, w.jobs = [("dynamic_job", job)] ∧ job.steps.length = 2 := by
  have hgen := generate_ok [sampleP0] "ubuntu-latest" (by decide)
  have h := c6_workflow_shape [sampleP0] "ubuntu-latest" _ _ hgen
  obtain ⟨h1, job, hj, _, hlen, _⟩ := h
  exact ⟨_, _, hgen, h1, job, hj, hlen⟩

/-- C7: on a valid configuration the pipeline exits 0 and still launches
result correlation and produces the output, whatever the engine exit code;
and (with the valid configuration fixed) a nonzero pipeline exit can only
come from a failed intermediate-file write. -/
theorem c7_engine_exit_best_effort (presetsInput customInput : Option (List StepSpec))
    (ros : String) (actExit : Nat) (files : ResFiles) (parser : ParserB)
    (jsonValid : String → Bool) (outFile : Option String)
    (hne : ¬(presetsInput = none ∧ customInput = none))
    (hmerged : mergeActions (presetsInput.getD []) (customInput.getD []) ≠ [])
    (hv : ∀ a ∈ mergeActions (presetsInput.getD []) (customInput.getD []),
      validStep a = true) :
    ((runPipeline presetsInput customInput ros true true actExit files parser
        jsonValid outFile).exitCode = 0 ∧
     Ev.engineLaunched ∈ (runPipeline presetsInput customInput ros true true
        actExit files parser jsonValid outFile).trace ∧
     Ev.outputSet (process_results files parser jsonValid).1 ∈
       (runPipeline presetsInput customInput ros true true actExit files
        parser jsonValid outFile).trace) ∧
    (∀ (wm wf : Bool) (ae : Nat),
      (runPipeline presetsInput customInput ros wm wf ae files parser
        jsonValid outFile).exitCode ≠ 0 →
      wm = false ∨ wf = false) := by
  constructor
  · have hr := runPipeline_ok presetsInput customInput ros true true actExit
      files parser jsonValid outFile hne hmerged hv rfl rfl
    rw [hr]
    refine ⟨rfl, ?_, ?_⟩
    · simp
    · simp
  · intro wm wf ae hnz
    cases wm with
    | false => exact Or.inl rfl
    | true =>
      cases wf with
      | false => exact Or.inr rfl
      | true =>
        rw [runPipeline_ok presetsInput customInput ros true true ae files
          parser jsonValid outFile hne hmerged hv rfl rfl] at hnz
        exact absurd rfl hnz

/-- C7 witness: engine exit 99 still gives pipeline exit 0 with the engine
launched and the output set. -/
theorem c7_witness :
    (¬(some [sampleP0] = none ∧ (none : Option (List StepSpec)) = none)) ∧
    (runPipeline (some [sampleP0]) none "ubuntu-latest" true true 99
        ⟨false, false, false⟩ ParserB.fail (fun _ => false) none).exitCode = 0 ∧
    Ev.engineLaunched ∈ (runPipeline (some [sampleP0]) none "ubuntu-latest"
        true true 99 ⟨false, false, false⟩ ParserB.fail (fun _ => false)
        none).trace := by
  have h := (c7_engine_exit_best_effort (some [sampleP0]) none "ubuntu-latest"
    99 ⟨false, false, false⟩ ParserB.fail (fun _ => false) none
    (by decide) (by decide) (by decide)).1
  exact ⟨by decide, h.1, h.2.1⟩

/-- C8: a requested results output path that is absolute or contains `..` is
skipped (no file-save event, a skip event) while the run completes normally:
exit code 0 and the primary output still set. -/
theorem c8_save_guard_nonfatal (presetsInput customInput : Option (List StepSpec))
    (ros : String) (actExit : Nat) (files : ResFiles) (parser : ParserB)
    (jsonValid : String → Bool) (f : String)
    (hne : ¬(presetsInput = none ∧ customInput = none))
    (hmerged : mergeActions (presetsInput.getD []) (customInput.getD []) ≠ [])
    (hv : ∀ a ∈ mergeActions (presetsInput.getD []) (customInput.getD []),
      validStep a = true)
    (hbad : (pathIsAbsolute f || containsSub f "..") = true) :
    (runPipeline presetsInput customInput ros true true actExit files parser
        jsonValid (some f)).exitCode = 0 ∧
    Ev.saveSkipped ∈ (runPipeline presetsInput customInput ros true true
        actExit files parser jsonValid (some f)).trace ∧
    (∀ p c, Ev.fileSaved p c ∉ (runPipeline presetsInput customInput ros true
        true actExit files parser jsonValid (some f)).trace) ∧
    Ev.outputSet (process_results files parser jsonValid).1 ∈
      (runPipeline presetsInput customInput ros true true actExit files
        parser jsonValid (some f)).trace := by
  have hfne : (f == "") = false := by
    cases hf0 : f == ""
    · rfl
    · have hfe : f = "" := by simpa using hf0
      subst hfe
      exact absurd hbad (by decide)
  have hsave : save_results_to_file (process_results files parser jsonValid).1
      (some f) = [Ev.saveSkipped] := by
    simp [save_results_to_file, hfne, hbad]
  have hr := runPipeline_ok presetsInput customInput ros true true actExit
    files parser jsonValid (some f) hne hmerged hv rfl rfl
  rw [hsave] at hr
  rw [hr]
  refine ⟨rfl, ?_, ?_, ?_⟩
  · simp
  · intro p c hmem
    cases hb : (process_results files parser jsonValid).2.1 <;>
      simp [hb] at hmem
  · simp

/-- C8 witness: spec scenario C, `results_output_file = "../x"`. -/
theorem c8_witness :
    (pathIsAbsolute "../x" || containsSub "../x" "..") = true ∧
    (runPipeline (some [sampleP0]) none "ubuntu-latest" true true 0
        ⟨true, true, true⟩ (ParserB.ok "[]") (fun _ => true)
        (some "../x")).exitCode = 0 ∧
    Ev.saveSkipped ∈ (runPipeline (some [sampleP0]) none "ubuntu-latest" true
        true 0 ⟨true, true, true⟩ (ParserB.ok "[]") (fun _ => true)
        (some "../x")).trace := by
  have h := c8_save_guard_nonfatal (some [sampleP0]) none "ubuntu-latest" 0
    ⟨true, true, true⟩ (ParserB.ok "[]") (fun _ => true) "../x"
    (by decide) (by decide) (by decide) (by decide)
  exact ⟨by decide, h.1, h.2.1⟩

/-- C9: classification is by truthiness alone — a step with a truthy `uses`
is rendered as a uses-step with its `run`, `shell` and `working-directory`
omitted even when `run` is also present, and a step whose `uses` and `run`
are both absent or empty strings makes generation abort. -/
theorem c9_truthiness_classification (a : StepSpec) (i : Nat)
    (h : truthy a.uses = true) :
    validStep a = true ∧
    mkStep i a = .ok (stepIdOf i a, entryOf i a) ∧
    (entryOf i a).uses = some (a.uses.getD "") ∧
    (entryOf i a).run = none ∧
    (entryOf i a).shell = none ∧
    (entryOf i a).workingDirectory = none ∧
    (∀ b : StepSpec, truthy b.uses = false → truthy b.run = false →
      ∀ ros, ∃ e, generate_workflow_and_map [b] ros = .error e) := by
  have hval : validStep a = true := by simp [validStep, h]
  refine ⟨hval, mkStep_ok i a hval, ?_, ?_, ?_, ?_, ?_⟩
  · simp [entryOf, h]
  · simp [entryOf, h]
  · simp [entryOf, h]
  · simp [entryOf, h]
  · intro b hbu hbr ros
    exact generate_err_of_invalid [b] ros
      ⟨b, by simp, by simp [validStep, hbu, hbr]⟩

/-- C9 witness: a step with both keys renders as a uses-step without abort;
a step with both keys empty aborts. -/
theorem c9_witness :
    truthy sampleBoth.uses = true ∧
    (entryOf 0 sampleBoth).uses = some "actions/checkout@v4" ∧
    (entryOf 0 sampleBoth).run = none ∧
    ∃ e, generate_workflow_and_map [sampleEmptyBoth] "ubuntu-latest" = .error e := by
  have h := c9_truthiness_classification sampleBoth 0 (by decide)
  exact ⟨by decide, h.2.2.1, h.2.2.2.1,
    h.2.2.2.2.2.2 sampleEmptyBoth (by decide) (by decide) "ubuntu-latest"⟩

/-- C10: the results output path is rejected whenever `..` occurs anywhere in
it as a substring; in particular `results..json`, which is relative and has
no parent-directory traversal segment (no slash and not itself `..`), is
skipped. -/
theorem c10_dotdot_substring_reject (content f : String)
    (hsub : containsSub f ".." = true) :
    save_results_to_file content (some f) = [Ev.saveSkipped] ∧
    containsSub "results..json" ".." = true ∧
    pathIsAbsolute "results..json" = false ∧
    ("results..json".data.contains '/') = false ∧
    "results..json" ≠ ".." := by
  refine ⟨?_, by decide, by decide, by decide, by decide⟩
  have hfne : (f == "") = false := by
    cases hf0 : f == ""
    · rfl
    · have hfe : f = "" := by simpa using hf0
      subst hfe
      exact absurd hsub (by decide)
  simp [save_results_to_file, hfne, hsub]

/-- C10 witness: `results..json` is skipped despite staying in the
workspace. -/
theorem c10_witness :
    containsSub "results..json" ".." = true ∧
    save_results_to_file "[]" (some "results..json") = [Ev.saveSkipped] :=
  ⟨by decide, (c10_dotdot_substring_reject "[]" "results..json" (by decide)).1⟩

end SuperAction
